import Mathlib

/-!
Shallow embedding of `src/tests_config/run_spec.js` (prettier-python test
driver) and verification of its specification claims.

JavaScript dynamic values are modelled by the inductive type `JVal`;
JavaScript objects are association lists of string keys (insertion order is
significant, keys are looked up front-to-back as `for…in` enumerates them).
External collaborators (prettier's `format`/`__debug.parse`, `massageAST`,
`normalizeOptions`, `semver.satisfies`, `child_process.spawnSync`, the
filesystem) are abstracted as fields of an `Env` record; throwing calls are
modelled with `Except String`.
-/

set_option autoImplicit false

namespace RunSpec

/-- A JavaScript value: `null`, `undefined`, booleans, numbers, strings,
arrays and plain objects (association lists in insertion order). -/
inductive JVal where
  | null
  | undef
  | bool (b : Bool)
  | num (n : Int)
  | str (s : String)
  | arr (elems : List JVal)
  | obj (fields : List (String × JVal))

/-- A JavaScript object value, as carried around by the driver for option
sets: an association list of string keys in insertion order. -/
abbrev Obj := List (String × JVal)

/-- Property lookup `o[k]` on a plain object: first entry with the key. -/
def objGet : Obj → String → Option JVal
  | [], _ => none
  | (k', v') :: rest, k => if k' = k then some v' else objGet rest k

/-- Property write `o[k] = v`: overwrites in place (keeping the key's
position) when the key exists, appends otherwise — JavaScript's assignment
semantics on plain objects. -/
def objSet : Obj → String → JVal → Obj
  | [], k, v => [(k, v)]
  | (k', v') :: rest, k, v =>
    if k' = k then (k', v) :: rest else (k', v') :: objSet rest k v

/-- `Object.assign(target, src)`: write every entry of `src` into `target`
in order.  The result is the (mutated) target object. -/
def objAssign (target : Obj) (src : Obj) : Obj :=
  src.foldl (fun o kv => objSet o kv.1 kv.2) target

@[simp] theorem objGet_objSet_self (o : Obj) (k : String) (v : JVal) :
    objGet (objSet o k v) k = some v := by
  induction o with
  | nil => simp [objSet, objGet]
  | cons hd tl ih =>
    obtain ⟨k0, v0⟩ := hd
    by_cases h : k0 = k
    · simp [objSet, objGet, h]
    · simp [objSet, objGet, h, ih]

theorem objGet_objSet_ne (o : Obj) (k k' : String) (v : JVal) (h : k' ≠ k) :
    objGet (objSet o k v) k' = objGet o k' := by
  induction o with
  | nil => simp [objSet, objGet, Ne.symm h]
  | cons hd tl ih =>
    obtain ⟨k0, v0⟩ := hd
    by_cases hk : k0 = k
    · simp [objSet, objGet, hk, Ne.symm h]
    · by_cases hk' : k0 = k'
      · simp [objSet, objGet, hk, hk', h]
      · simp [objSet, objGet, hk, hk', ih]

theorem objSet_objSet_same (o : Obj) (k : String) (v w : JVal) :
    objSet (objSet o k v) k w = objSet o k w := by
  induction o with
  | nil => simp [objSet]
  | cons hd tl ih =>
    obtain ⟨k0, v0⟩ := hd
    by_cases h : k0 = k
    · simp [objSet, h]
    · simp [objSet, h, ih]

/-- Member access `v.k`, defined (as the driver uses it) only on object
values; on every other value the field is absent.  (On `null`/`undefined`
the real access would throw; the driver only reads `.errors` off parse
results, which are objects.) -/
def jsGetField (v : JVal) (k : String) : Option JVal :=
  match v with
  | .obj fs => objGet fs k
  | _ => none

/-- JavaScript truthiness of a value (`!v` is its negation). -/
def truthy : JVal → Bool
  | .null => false
  | .undef => false
  | .bool b => b
  | .num n => decide (n ≠ 0)
  | .str s => decide (s ≠ "")
  | .arr _ => true
  | .obj _ => true

/-- The test `v.length === 0`: array/string length, or a `length` property
strictly equal to the number `0`; on values without a `length` the access
yields `undefined`, which is not `=== 0`. -/
def jsLengthIsZero : JVal → Bool
  | .arr l => decide (l.length = 0)
  | .str s => decide (s.length = 0)
  | .obj fs =>
    match objGet fs "length" with
    | some (.num 0) => true
    | _ => false
  | _ => false

mutual

/-- `stripExtraNonComparableKeys` from the source: arrays map element-wise,
`typeof`-objects are rebuilt dropping every `"text"` key, everything else is
returned as-is.  Note `typeof null === "object"` in JavaScript, so `null`
takes the object branch (the `for…in` loop over `null` runs zero times) and
comes back as an empty object. -/
def stripExtraNonComparableKeys : JVal → JVal
  | .arr l => .arr (stripList l)
  | .obj fs => .obj (stripFields fs)
  | .null => .obj []
  | v => v

/-- Element-wise recursion of `stripExtraNonComparableKeys` over an array. -/
def stripList : List JVal → List JVal
  | [] => []
  | x :: xs => stripExtraNonComparableKeys x :: stripList xs

/-- Field-wise recursion of `stripExtraNonComparableKeys` over an object's
entries, skipping the `"text"` key. -/
def stripFields : List (String × JVal) → List (String × JVal)
  | [] => []
  | (k, v) :: rest =>
    if k = "text" then stripFields rest
    else (k, stripExtraNonComparableKeys v) :: stripFields rest

end

mutual

/-- Whether a `"text"` key occurs on any object node at any depth. -/
def hasTextKey : JVal → Bool
  | .arr l => hasTextKeyList l
  | .obj fs => hasTextKeyFields fs
  | _ => false

/-- `hasTextKey` over the elements of an array. -/
def hasTextKeyList : List JVal → Bool
  | [] => false
  | x :: xs => hasTextKey x || hasTextKeyList xs

/-- `hasTextKey` over an object's entries. -/
def hasTextKeyFields : List (String × JVal) → Bool
  | [] => false
  | (k, v) :: rest => k == "text" || hasTextKey v || hasTextKeyFields rest

end

theorem stripList_eq_map (l : List JVal) :
    stripList l = l.map stripExtraNonComparableKeys := by
  induction l with
  | nil => simp [stripList]
  | cons x xs ih => simp [stripList, ih]

theorem stripFields_eq (fs : List (String × JVal)) :
    stripFields fs =
      (fs.filter (fun kv => kv.1 ≠ "text")).map
        (fun kv => (kv.1, stripExtraNonComparableKeys kv.2)) := by
  induction fs with
  | nil => simp [stripFields]
  | cons kv rest ih =>
    obtain ⟨k, v⟩ := kv
    by_cases h : k = "text"
    · simp [stripFields, h, ih]
    · simp [stripFields, h, ih, List.filter]

mutual

theorem hasTextKey_strip (v : JVal) :
    hasTextKey (stripExtraNonComparableKeys v) = false := by
  match v with
  | .arr l => simpa [stripExtraNonComparableKeys, hasTextKey] using hasTextKeyList_strip l
  | .obj fs => simpa [stripExtraNonComparableKeys, hasTextKey] using hasTextKeyFields_strip fs
  | .null => simp [stripExtraNonComparableKeys, hasTextKey, hasTextKeyFields]
  | .undef => simp [stripExtraNonComparableKeys, hasTextKey]
  | .bool b => simp [stripExtraNonComparableKeys, hasTextKey]
  | .num n => simp [stripExtraNonComparableKeys, hasTextKey]
  | .str s => simp [stripExtraNonComparableKeys, hasTextKey]

theorem hasTextKeyList_strip (l : List JVal) :
    hasTextKeyList (stripList l) = false := by
  match l with
  | [] => simp [stripList, hasTextKeyList]
  | x :: xs =>
    simp [stripList, hasTextKeyList, hasTextKey_strip x, hasTextKeyList_strip xs]

theorem hasTextKeyFields_strip (fs : List (String × JVal)) :
    hasTextKeyFields (stripFields fs) = false := by
  match fs with
  | [] => simp [stripFields, hasTextKeyFields]
  | (k, v) :: rest =>
    by_cases h : k = "text"
    · simpa [stripFields, h] using hasTextKeyFields_strip rest
    · simp [stripFields, h, hasTextKeyFields, hasTextKey_strip v,
        hasTextKeyFields_strip rest]

end

/-- Result of `spawnSync(bin, …)`: exit status (`none` models the `null`
status of a failed spawn) and captured standard output. -/
structure ProbeResult where
  status : Option Int
  stdout : String

/-- JavaScript `String.prototype.trim`: strip leading and trailing
whitespace. -/
def jsTrim (s : String) : String :=
  String.mk
    (((s.toList.dropWhile Char.isWhitespace).reverse.dropWhile
      Char.isWhitespace).reverse)

/-- `getPythonBinAndVersion` from the source: walk the candidate list,
probe each binary's version, skip candidates whose probe did not exit 0,
and return the first whose trimmed version string satisfies the semver
constraint.  `spawn` models `spawnSync` with the version-printing probe
script, `sat` models `semver.satisfies`. -/
def getPythonBinAndVersion (spawn : String → ProbeResult)
    (sat : String → String → Bool) :
    List String → String → Option (String × String)
  | [], _ => none
  | bin :: rest, versionSpec =>
    let proc := spawn bin
    if proc.status = some 0 then
      let version := jsTrim proc.stdout
      if sat version versionSpec then some (bin, version)
      else getPythonBinAndVersion spawn sat rest versionSpec
    else getPythonBinAndVersion spawn sat rest versionSpec

/-- A candidate qualifies when its probe exited with status 0 and its
trimmed stdout satisfies the version constraint. -/
def qualifies (spawn : String → ProbeResult) (sat : String → String → Bool)
    (versionSpec : String) (bin : String) : Bool :=
  decide ((spawn bin).status = some 0) && sat (jsTrim (spawn bin).stdout) versionSpec

theorem getPythonBinAndVersion_eq_find (spawn : String → ProbeResult)
    (sat : String → String → Bool) (bins : List String) (versionSpec : String) :
    getPythonBinAndVersion spawn sat bins versionSpec =
      (bins.find? (qualifies spawn sat versionSpec)).map
        (fun bin => (bin, jsTrim (spawn bin).stdout)) := by
  induction bins with
  | nil => simp [getPythonBinAndVersion]
  | cons bin rest ih =>
    by_cases hs : (spawn bin).status = some 0
    · by_cases hv : sat (jsTrim (spawn bin).stdout) versionSpec = true
      · simp [getPythonBinAndVersion, hs, hv, List.find?, qualifies]
      · simp [getPythonBinAndVersion, hs, hv, List.find?, qualifies, ih]
    · simp [getPythonBinAndVersion, hs, List.find?, qualifies, ih]

theorem getPythonBinAndVersion_some (spawn : String → ProbeResult)
    (sat : String → String → Bool) (bins : List String) (versionSpec : String)
    (bin version : String)
    (h : getPythonBinAndVersion spawn sat bins versionSpec = some (bin, version)) :
    version = jsTrim (spawn bin).stdout ∧ sat version versionSpec = true ∧ bin ∈ bins := by
  rw [getPythonBinAndVersion_eq_find] at h
  rcases Option.map_eq_some'.mp h with ⟨b, hfind, heq⟩
  obtain ⟨rfl, rfl⟩ : b = bin ∧ jsTrim (spawn b).stdout = version := by
    constructor
    · exact congrArg Prod.fst heq
    · exact congrArg Prod.snd heq
  have hq := List.find?_some hfind
  have hmem := List.mem_of_find?_eq_some hfind
  simp only [qualifies, Bool.and_eq_true, decide_eq_true_eq] at hq
  exact ⟨rfl, hq.2, hmem⟩

/-- A directory entry as seen by `fs.readdirSync` + `fs.lstatSync`: its
filename and whether `lstat` reports a regular file. -/
structure DirEntry where
  name : String
  isFile : Bool

/-- The external collaborators of the driver: `spawnSync` (specialised to
the version probe), `semver.satisfies`, `prettier.format`,
`prettier.__debug.parse` (both may throw), `massageAST`,
`normalizeOptions`, the filesystem, and the `AST_COMPARE` feature flag. -/
structure Env where
  spawn : String → ProbeResult
  sat : String → String → Bool
  formatF : String → Obj → Except String String
  debugParseF : String → Obj → Except String JVal
  massageF : JVal → Obj → JVal
  normalizeF : Obj → Obj
  readFile : String → String
  readdir : String → List DirEntry
  astCompare : Bool

/-- The module-level `python2BinAndVersion` constant: first of
`python2.7`, `python2`, `python` whose version satisfies `2.*`. -/
def python2BinAndVersion (env : Env) : Option (String × String) :=
  getPythonBinAndVersion env.spawn env.sat ["python2.7", "python2", "python"] "2.*"

/-- The module-level `python3BinAndVersion` constant: first of
`python3.6`, `python3`, `python` whose version satisfies `3.*`. -/
def python3BinAndVersion (env : Env) : Option (String × String) :=
  getPythonBinAndVersion env.spawn env.sat ["python3.6", "python3", "python"] "3.*"

/-- `getPythonBinaries` from the source.  Returns the filtered interpreter
list together with the test units it registers (name, assertion): "At least
one valid Python version" always, and "Both Python versions available"
exactly when the version spec is the literal `"*"`. -/
def getPythonBinaries (env : Env) (versionSpec : String) :
    List String × List (String × Bool) :=
  let pythonBinaries :=
    [python2BinAndVersion env, python3BinAndVersion env].foldl
      (fun acc binAndVersion =>
        match binAndVersion with
        | some (bin, version) =>
          if env.sat version versionSpec then acc ++ [bin] else acc
        | none => acc) []
  let tests :=
    [("At least one valid Python version", decide (0 < pythonBinaries.length))] ++
      (if versionSpec = "*" then
        [("Both Python versions available", decide (pythonBinaries.length = 2))]
      else [])
  (pythonBinaries, tests)

/-- The contribution of a single resolved track to the interpreter list:
its executable if its version satisfies the run's constraint. -/
def trackBins (sat : String → String → Bool) (binAndVersion : Option (String × String))
    (versionSpec : String) : List String :=
  match binAndVersion with
  | some (bin, version) => if sat version versionSpec then [bin] else []
  | none => []

theorem getPythonBinaries_fst_eq (env : Env) (versionSpec : String) :
    (getPythonBinaries env versionSpec).1 =
      trackBins env.sat (python2BinAndVersion env) versionSpec ++
        trackBins env.sat (python3BinAndVersion env) versionSpec := by
  unfold getPythonBinaries trackBins
  cases h2 : python2BinAndVersion env with
  | none =>
    cases h3 : python3BinAndVersion env with
    | none => simp
    | some bv3 =>
      obtain ⟨b3, v3⟩ := bv3
      by_cases hs3 : env.sat v3 versionSpec = true <;> simp [hs3]
  | some bv2 =>
    obtain ⟨b2, v2⟩ := bv2
    cases h3 : python3BinAndVersion env with
    | none =>
      by_cases hs2 : env.sat v2 versionSpec = true <;> simp [hs2]
    | some bv3 =>
      obtain ⟨b3, v3⟩ := bv3
      by_cases hs2 : env.sat v2 versionSpec = true <;>
        by_cases hs3 : env.sat v3 versionSpec = true <;> simp [hs2, hs3]

/-- `path.extname` restricted to bare filenames (no directory separators):
the suffix from the last dot, empty when there is no dot or the dot is the
leading character; `".."` has no extension. -/
def extname (name : String) : String :=
  if name = ".." then ""
  else
    match name.toList.reverse.findIdx? (fun c => c = '.') with
    | none => ""
    | some k =>
      if k + 1 = name.toList.length then ""
      else String.mk (name.toList.reverse.take (k + 1)).reverse

/-- The filter `run_spec` applies to each directory entry (transcribed from
the `if` in the `forEach` body): keep entries whose extension is not
`.snap`, that `lstat` reports as regular files, whose name's first
character is not `.` (JavaScript `filename[0] !== "."`), and whose name is
not `jsfmt.spec.js`. -/
def fixtureGuard (e : DirEntry) : Bool :=
  decide (extname e.name ≠ ".snap") && e.isFile &&
    decide (e.name.toList.head? ≠ some '.') && decide (e.name ≠ "jsfmt.spec.js")

/-- One left-to-right pass of `String.replace(/\r\n/g, "\n")` over the
character list: each non-overlapping `\r\n` becomes `\n`; scanning resumes
after the replacement. -/
def replaceCrLf : List Char → List Char
  | [] => []
  | [c] => [c]
  | c1 :: c2 :: rest =>
    if c1 = '\r' ∧ c2 = '\n' then '\n' :: replaceCrLf rest
    else c1 :: replaceCrLf (c2 :: rest)

/-- `source.replace(/\r\n/g, "\n")` on strings, as applied to fixture file
contents in `run_spec`. -/
def normalizeEols (s : String) : String :=
  String.mk (replaceCrLf s.toList)

/-- Whether a character list contains the two-character sequence `\r\n`. -/
def containsCrLf : List Char → Bool
  | [] => false
  | [_] => false
  | c1 :: c2 :: rest =>
    (decide (c1 = '\r') && decide (c2 = '\n')) || containsCrLf (c2 :: rest)

/-- Whether every carriage return in the list is immediately followed by a
line feed. -/
def noLoneCR : List Char → Bool
  | [] => true
  | [c] => decide (c ≠ '\r')
  | c1 :: c2 :: rest =>
    (decide (c1 ≠ '\r') || decide (c2 = '\n')) && noLoneCR (c2 :: rest)

theorem noLoneCR_cons (c : Char) (l : List Char) (h : noLoneCR (c :: l) = true) :
    noLoneCR l = true := by
  cases l with
  | nil => simp [noLoneCR]
  | cons c2 r =>
    simp only [noLoneCR, Bool.and_eq_true] at h
    exact h.2

theorem noLoneCR_head (c1 c2 : Char) (rest : List Char)
    (h : noLoneCR (c1 :: c2 :: rest) = true) (hc : c1 = '\r') : c2 = '\n' := by
  simp only [noLoneCR, Bool.and_eq_true, Bool.or_eq_true, decide_eq_true_eq] at h
  rcases h.1 with h1 | h1
  · exact absurd hc h1
  · exact h1

theorem crNotMem_replaceCrLf : ∀ cs : List Char,
    noLoneCR cs = true → '\r' ∉ replaceCrLf cs
  | [], _ => by simp [replaceCrLf]
  | [c], h => by
    simp only [noLoneCR, decide_eq_true_eq] at h
    simp only [replaceCrLf, List.mem_singleton]
    exact fun hc => h hc.symm
  | c1 :: c2 :: rest, h => by
    have htail : noLoneCR (c2 :: rest) = true := noLoneCR_cons c1 _ h
    by_cases hcr : c1 = '\r' ∧ c2 = '\n'
    · obtain ⟨h1, h2⟩ := hcr
      subst h1
      subst h2
      have hrest : noLoneCR rest = true := noLoneCR_cons _ _ htail
      have ih := crNotMem_replaceCrLf rest hrest
      have hstep : replaceCrLf ('\r' :: '\n' :: rest) = '\n' :: replaceCrLf rest := by
        simp [replaceCrLf]
      rw [hstep]
      simp only [List.mem_cons]
      rintro (hh | hh)
      · exact absurd hh (by decide)
      · exact ih hh
    · have h1 : c1 ≠ '\r' := fun hh => hcr ⟨hh, noLoneCR_head c1 c2 rest h hh⟩
      have ih := crNotMem_replaceCrLf (c2 :: rest) htail
      have hstep : replaceCrLf (c1 :: c2 :: rest) = c1 :: replaceCrLf (c2 :: rest) := by
        simp [replaceCrLf, hcr]
      rw [hstep]
      simp only [List.mem_cons]
      rintro (hh | hh)
      · exact h1 hh.symm
      · exact ih hh

theorem mem_of_containsCrLf : ∀ l : List Char, containsCrLf l = true → '\r' ∈ l
  | c1 :: c2 :: rest, h => by
    simp only [containsCrLf, Bool.or_eq_true, Bool.and_eq_true,
      decide_eq_true_eq] at h
    rcases h with ⟨h1, _⟩ | h1
    · exact h1 ▸ List.mem_cons_self _ _
    · exact List.mem_cons_of_mem _ (mem_of_containsCrLf (c2 :: rest) h1)

/-- Whether a value is `undefined` (`expect(v).toBeDefined()` asserts the
negation). -/
def JVal.isUndef : JVal → Bool
  | .undef => true
  | _ => false

mutual

/-- Structural deep equality of values, modelling Jest's
`expect(a).toEqual(b)` on the driver's tree values. -/
def JVal.beq : JVal → JVal → Bool
  | .null, .null => true
  | .undef, .undef => true
  | .bool a, .bool b => a == b
  | .num a, .num b => a == b
  | .str a, .str b => a == b
  | .arr a, .arr b => JVal.beqList a b
  | .obj a, .obj b => JVal.beqFields a b
  | _, _ => false

/-- `JVal.beq` element-wise over arrays. -/
def JVal.beqList : List JVal → List JVal → Bool
  | [], [] => true
  | x :: xs, y :: ys => JVal.beq x y && JVal.beqList xs ys
  | _, _ => false

/-- `JVal.beq` entry-wise over object fields. -/
def JVal.beqFields : List (String × JVal) → List (String × JVal) → Bool
  | [], [] => true
  | (k1, v1) :: xs, (k2, v2) :: ys =>
    k1 == k2 && JVal.beq v1 v2 && JVal.beqFields xs ys
  | _, _ => false

end

/-- The JavaScript condition `!ast.errors || ast.errors.length === 0` on
the (possibly absent) `errors` field of the original parse result. -/
def errorsAbsentOrEmptyJS (errors : Option JVal) : Bool :=
  match errors with
  | none => true
  | some v => !truthy v || jsLengthIsZero v

/-- The body of the feature-flagged `test(path + " parse", …)` unit: the
sequence of assertions it evaluates, in order.  `pperr` is the captured
re-parse diagnostic (`null` when nothing threw), `ppastMassaged` the
massaged re-parsed tree (`undefined` when the `try` failed), `astMassaged`
the massaged original tree, and `errors` the original parse result's
`errors` field.  The deep-equality assertion is evaluated only under the
error-freedom condition. -/
def astCompareAssertions (pperr : Option String) (ppastMassaged astMassaged : JVal)
    (errors : Option JVal) : List Bool :=
  [decide (pperr = none), !ppastMassaged.isUndef] ++
    (if errorsAbsentOrEmptyJS errors then [JVal.beq astMassaged ppastMassaged]
     else [])

/-- `prettyprint` from the source: `prettier.format` under the option set
extended (into a fresh object) with the fixture's `filepath`. -/
def prettyprint (env : Env) (src filename : String) (options : Obj) :
    Except String String :=
  env.formatF src (objAssign [("filepath", JVal.str filename)] options)

/-- `parse` from the source: `prettier.__debug.parse` followed by
`stripExtraNonComparableKeys`. -/
def parseModel (env : Env) (string : String) (opts : Obj) : Except String JVal :=
  (env.debugParseF string opts).map stripExtraNonComparableKeys

/-- A registered test unit.  `verify` tests close over the shared
`mergedOptions` object and run later (their body is `verifyTestRun`);
the other variants record the data computed at registration time. -/
inductive Test where
  | snapshot (name : String) (snapshotKey : String) (content : String)
  | verify (name : String) (source : String) (path : String)
      (referenceOutput : String) (parserName : String)
  | astCompare (name : String) (assertions : List Bool)
  | plain (name : String) (assertion : Bool)

/-- Execution of one alternate-parser verification test body.  The shared
`mergedOptions` object is threaded as state: `Object.assign(mergedOptions,
{parser})` overwrites its `parser` field in place and the resulting object
(`verifyOptions`, which *is* the mutated shared object) is both the option
set passed to `prettyprint` and the post-state.  The outcome is the
assertion `expect(output).toEqual(verifyOutput)` (or the propagated
formatter error). -/
def verifyTestRun (env : Env) (source path output parserName : String)
    (mergedOptions : Obj) : Obj × Except String Bool :=
  let verifyOptions := objSet mergedOptions "parser" (JVal.str parserName)
  (verifyOptions,
    match prettyprint env source path verifyOptions with
    | .error e => .error e
    | .ok verifyOutput => .ok (output == verifyOutput))

/-- The 80-tilde separator `"~".repeat(80)` used in snapshot contents. -/
def tildeSep : String :=
  String.mk (List.replicate 80 '~')

/-- Template-literal rendering of `mergedOptions.parser`. -/
def parserFieldString (o : Obj) : String :=
  match objGet o "parser" with
  | some (.str s) => s
  | _ => "undefined"

/-- Registration work for one fixture × one interpreter binary: build the
merged option set, compute the reference output, register the snapshot
test, the alternate-parser verification tests, and (behind the
`AST_COMPARE` flag) the structural round-trip test. -/
def processBin (env : Env) (p0 : String) (restParsers : List String)
    (options : Obj) (filename path source pythonBin : String) :
    Except String (List Test) := do
  let mergedOptions :=
    objSet (objSet (objAssign [] options) "parser" (JVal.str p0))
      "pythonBin" (JVal.str pythonBin)
  let output ← prettyprint env source path mergedOptions
  let snapTest := Test.snapshot
    (filename ++ " - " ++ parserFieldString mergedOptions ++ "-verify")
    filename (source ++ tildeSep ++ "\n" ++ output)
  let verifyTests := restParsers.map (fun parserName =>
    Test.verify (filename ++ " - " ++ parserName ++ "-verify")
      source path output parserName)
  let astTests ←
    if env.astCompare then do
      let ast ← parseModel env source mergedOptions
      let normalizedOptions := env.normalizeF mergedOptions
      let astMassaged := env.massageF ast normalizedOptions
      let reparsed :=
        match prettyprint env source path mergedOptions with
        | .error e => Except.error e
        | .ok pp => parseModel env pp mergedOptions
      let (pperr, ppastMassaged) :=
        match reparsed with
        | .error e => (some e, JVal.undef)
        | .ok ppast => (none, env.massageF ppast normalizedOptions)
      pure [Test.astCompare (path ++ " parse")
        (astCompareAssertions pperr ppastMassaged astMassaged
          (jsGetField ast "errors"))]
    else pure ([] : List Test)
  pure ([snapTest] ++ verifyTests ++ astTests)

/-- Registration work for one eligible fixture file: read and normalize
its content, resolve the interpreter set (which registers its own
assertions), then process every resolved interpreter. -/
def processFile (env : Env) (dirname p0 : String) (restParsers : List String)
    (versionRange : String) (options : Obj) (filename : String) :
    Except String (List Test) := do
  let path := dirname ++ "/" ++ filename
  let source := normalizeEols (env.readFile path)
  let (pythonBinaries, binarySetAsserts) := getPythonBinaries env versionRange
  let perBin ← pythonBinaries.mapM
    (processBin env p0 restParsers options filename path source)
  pure (binarySetAsserts.map (fun t => Test.plain t.1 t.2) ++ perBin.flatten)

/-- `run_spec` from the source: merge the default options under the
caller's, fail fast on a missing or empty parser list, then register test
units for every eligible entry of the fixture directory.  The result is
the list of registered test units (registration order preserved); a thrown
configuration or registration-time error is the `Except.error` case. -/
def run_spec (env : Env) (dirname : String) (parsers : Option (List String))
    (versionRange : String) (optionsArg : Option Obj) :
    Except String (List Test) := do
  let options := objAssign [("plugins", JVal.arr [JVal.str "."])] (optionsArg.getD [])
  match parsers with
  | none => throw ("No parsers were specified for " ++ dirname)
  | some [] => throw ("No parsers were specified for " ++ dirname)
  | some (p0 :: restParsers) => do
    let entries := (env.readdir dirname).filter fixtureGuard
    let lists ← entries.mapM
      (fun e => processFile env dirname p0 restParsers versionRange options e.name)
    pure lists.flatten

/-- A concrete probe environment for witnesses: `python2.7` and
`python3.6` are installed (exit 0), everything else fails to spawn. -/
def spawnW : String → ProbeResult := fun bin =>
  if bin = "python2.7" then ⟨some 0, "2.7.14\n"⟩
  else if bin = "python3.6" then ⟨some 0, "3.6.5"⟩
  else ⟨none, ""⟩

/-- A concrete stand-in for `semver.satisfies` on the ranges the driver
uses, agreeing with semver on the two witness versions. -/
def satW (version range : String) : Bool :=
  if range = "2.*" then version == "2.7.14"
  else if range = "3.*" then version == "3.6.5"
  else if range = "*" then version == "2.7.14" || version == "3.6.5"
  else false

theorem satW_disjoint (v : String) :
    ¬(satW v "2.*" = true ∧ satW v "3.*" = true) := by
  rintro ⟨h2, h3⟩
  by_cases hv : v = "2.7.14"
  · subst hv
    exact absurd h3 (by decide)
  · simp [satW, hv] at h2

/-- A fully concrete environment for witnesses: the formatter is the
identity, parsing always yields an empty object, both interpreter tracks
resolve. -/
def envW : Env where
  spawn := spawnW
  sat := satW
  formatF := fun src _ => .ok src
  debugParseF := fun _ _ => .ok (JVal.obj [])
  massageF := fun v _ => v
  normalizeF := fun o => o
  readFile := fun _ => ""
  readdir := fun _ => []
  astCompare := false

/-- C4: for every ordered candidate list and version constraint, the
interpreter resolver returns the first candidate (in order) whose version
probe exits with status zero and whose trimmed reported version satisfies
the constraint; it returns `none` exactly when no candidate qualifies
(failed probes are skipped, not fatal); and whenever a binding is
returned, its version satisfies the supplied constraint. -/
theorem claim_C4_resolver_first_satisfying (spawn : String → ProbeResult)
    (sat : String → String → Bool) (bins : List String) (versionSpec : String) :
    getPythonBinAndVersion spawn sat bins versionSpec =
      (bins.find? (qualifies spawn sat versionSpec)).map
        (fun bin => (bin, jsTrim (spawn bin).stdout))
    ∧ (getPythonBinAndVersion spawn sat bins versionSpec = none ↔
        ∀ bin ∈ bins, qualifies spawn sat versionSpec bin = false)
    ∧ ∀ bin version,
        getPythonBinAndVersion spawn sat bins versionSpec = some (bin, version) →
        sat version versionSpec = true := by
  refine ⟨getPythonBinAndVersion_eq_find spawn sat bins versionSpec, ?_, ?_⟩
  · rw [getPythonBinAndVersion_eq_find]
    simp [List.find?_eq_none]
  · intro bin version h
    exact (getPythonBinAndVersion_some spawn sat bins versionSpec bin version h).2.1

theorem claim_C4_witness : satW "2.7.14" "2.*" = true :=
  (claim_C4_resolver_first_satisfying spawnW satW
      ["python2.7", "python2", "python"] "2.*").2.2
    "python2.7" "2.7.14" (by decide)

/-- C5: for every version range, the interpreter set builder returns the
executables of the resolved track bindings whose versions satisfy the
range, in track order (python-2 track first, python-3 track second); and,
because no version can satisfy both tracks' constraints `2.*` and `3.*`
(the stated semver disjointness), the returned list never contains a
duplicate. -/
theorem claim_C5_builder_track_order_dedup (env : Env)
    (hdisj : ∀ v, ¬(env.sat v "2.*" = true ∧ env.sat v "3.*" = true))
    (versionSpec : String) :
    (getPythonBinaries env versionSpec).1 =
      trackBins env.sat (python2BinAndVersion env) versionSpec ++
        trackBins env.sat (python3BinAndVersion env) versionSpec
    ∧ (getPythonBinaries env versionSpec).1.Nodup := by
  refine ⟨getPythonBinaries_fst_eq env versionSpec, ?_⟩
  rw [getPythonBinaries_fst_eq]
  cases h2 : python2BinAndVersion env with
  | none =>
    cases h3 : python3BinAndVersion env with
    | none => simp [trackBins]
    | some bv3 =>
      obtain ⟨b3, v3⟩ := bv3
      by_cases hs : env.sat v3 versionSpec = true <;> simp [trackBins, hs]
  | some bv2 =>
    obtain ⟨b2, v2⟩ := bv2
    cases h3 : python3BinAndVersion env with
    | none =>
      by_cases hs : env.sat v2 versionSpec = true <;> simp [trackBins, hs]
    | some bv3 =>
      obtain ⟨b3, v3⟩ := bv3
      have H2 := getPythonBinAndVersion_some _ _ _ _ _ _ h2
      have H3 := getPythonBinAndVersion_some _ _ _ _ _ _ h3
      have hne : b2 ≠ b3 := by
        intro heq
        apply hdisj v2
        refine ⟨H2.2.1, ?_⟩
        have hv : v2 = v3 := by
          rw [H2.1, H3.1, heq]
        rw [hv]
        exact H3.2.1
      by_cases hs2 : env.sat v2 versionSpec = true <;>
        by_cases hs3 : env.sat v3 versionSpec = true <;>
          simp [trackBins, hs2, hs3, hne]

theorem claim_C5_witness :
    (getPythonBinaries envW "*").1.Nodup ∧
      (getPythonBinaries envW "*").1 = ["python2.7", "python3.6"] :=
  ⟨(claim_C5_builder_track_order_dedup envW satW_disjoint "*").2, by decide⟩

/-- C6: every invocation of the interpreter set builder registers the
assertion that the filtered set is non-empty, and it registers the
assertion that the set has size two exactly when the supplied range is the
literal `"*"`. -/
theorem claim_C6_builder_assertions (env : Env) (versionSpec : String) :
    ("At least one valid Python version",
        decide (0 < (getPythonBinaries env versionSpec).1.length)) ∈
      (getPythonBinaries env versionSpec).2
    ∧ (("Both Python versions available",
          decide ((getPythonBinaries env versionSpec).1.length = 2)) ∈
        (getPythonBinaries env versionSpec).2 ↔ versionSpec = "*") := by
  constructor
  · simp [getPythonBinaries]
  · by_cases h : versionSpec = "*"
    · simp [getPythonBinaries, h]
    · simp [getPythonBinaries, h]

theorem claim_C6_witness :
    ("At least one valid Python version",
        decide (0 < (getPythonBinaries envW "*").1.length)) ∈
      (getPythonBinaries envW "*").2
    ∧ (("Both Python versions available",
          decide ((getPythonBinaries envW "*").1.length = 2)) ∈
        (getPythonBinaries envW "*").2 ↔ ("*" : String) = "*") :=
  claim_C6_builder_assertions envW "*"

mutual

theorem JVal.beq_iff : ∀ a b : JVal, JVal.beq a b = true ↔ a = b
  | .null, b => by cases b <;> simp [JVal.beq]
  | .undef, b => by cases b <;> simp [JVal.beq]
  | .bool x, b => by cases b <;> simp [JVal.beq]
  | .num x, b => by cases b <;> simp [JVal.beq]
  | .str x, b => by cases b <;> simp [JVal.beq]
  | .arr l, b => by
    cases b with
    | arr l2 => simp [JVal.beq, JVal.beqList_iff l l2]
    | null => simp [JVal.beq]
    | undef => simp [JVal.beq]
    | bool x => simp [JVal.beq]
    | num x => simp [JVal.beq]
    | str x => simp [JVal.beq]
    | obj fs2 => simp [JVal.beq]
  | .obj fs, b => by
    cases b with
    | obj fs2 => simp [JVal.beq, JVal.beqFields_iff fs fs2]
    | null => simp [JVal.beq]
    | undef => simp [JVal.beq]
    | bool x => simp [JVal.beq]
    | num x => simp [JVal.beq]
    | str x => simp [JVal.beq]
    | arr l2 => simp [JVal.beq]

theorem JVal.beqList_iff : ∀ l1 l2 : List JVal, JVal.beqList l1 l2 = true ↔ l1 = l2
  | [], [] => by simp [JVal.beqList]
  | [], _ :: _ => by simp [JVal.beqList]
  | _ :: _, [] => by simp [JVal.beqList]
  | x :: xs, y :: ys => by
    simp [JVal.beqList, JVal.beq_iff x y, JVal.beqList_iff xs ys]

theorem JVal.beqFields_iff : ∀ l1 l2 : List (String × JVal),
    JVal.beqFields l1 l2 = true ↔ l1 = l2
  | [], [] => by simp [JVal.beqFields]
  | [], _ :: _ => by simp [JVal.beqFields]
  | _ :: _, [] => by simp [JVal.beqFields]
  | (k1, v1) :: xs, (k2, v2) :: ys => by
    simp only [JVal.beqFields, Bool.and_eq_true, beq_iff_eq,
      JVal.beq_iff v1 v2, JVal.beqFields_iff xs ys, List.cons.injEq,
      Prod.mk.injEq, and_assoc]

end

theorem isPrefixOf_singleton_head (c : Char) (l : List Char) :
    [c].isPrefixOf l = decide (l.head? = some c) := by
  cases l with
  | nil => simp [List.isPrefixOf]
  | cons x t =>
    simp only [List.isPrefixOf, Bool.and_true, List.head?]
    rw [Bool.eq_iff_iff]
    simp only [beq_iff_eq, decide_eq_true_eq, Option.some.injEq]
    exact eq_comm

/-- The specification's eligibility predicate for a directory entry: a
regular file whose extension is not the snapshot extension, whose filename
does not start with `.`, and whose filename is not the literal
spec-definition filename. -/
def specFixturePred (e : DirEntry) : Bool :=
  e.isFile && decide (extname e.name ≠ ".snap") &&
    !(['.'].isPrefixOf e.name.toList) && decide (e.name ≠ "jsfmt.spec.js")

/-- C7: directory enumeration yields exactly the entries satisfying the
specification's predicate — regular files, not `.snap`, not dot-prefixed,
not `jsfmt.spec.js` — in directory iteration order (`run_spec` filters the
flat `readdirSync` listing with `fixtureGuard`; there is no recursion). -/
theorem claim_C7_enumeration_filter (dir : List DirEntry) :
    dir.filter fixtureGuard = dir.filter specFixturePred := by
  apply List.filter_congr
  intro e _
  obtain ⟨nm, isf⟩ := e
  unfold fixtureGuard specFixturePred
  simp only [isPrefixOf_singleton_head]
  by_cases hA : extname nm = ".snap" <;>
    by_cases hH : nm.toList.head? = some '.' <;>
      by_cases hJ : nm = "jsfmt.spec.js" <;>
        cases isf <;> simp [hA, hH, hJ]

/-- C8: called with an absent or empty parser list, `run_spec` throws the
configuration error naming the offending directory; the result is the
same for every environment (so the fixture directory is never read) and
no test unit is registered. -/
theorem claim_C8_empty_parsers_throws (env : Env) (dirname versionRange : String)
    (optionsArg : Option Obj) (parsers : Option (List String))
    (h : parsers = none ∨ parsers = some []) :
    run_spec env dirname parsers versionRange optionsArg =
      Except.error ("No parsers were specified for " ++ dirname) := by
  rcases h with h | h <;> subst h <;> rfl

theorem claim_C8_witness :
    run_spec envW "python/tuples" none "*" none =
      Except.error ("No parsers were specified for " ++ "python/tuples") :=
  claim_C8_empty_parsers_throws envW "python/tuples" "*" none none (Or.inl rfl)

/-- C9 as stated is false: normalizing the file content `"\r\r\n"` yields
`"\r\n"` — replacing the (only) `\r\n` reassembles a new CRLF with the
preceding lone carriage return, so the text handed to the formatter can
still contain `\r\n`. -/
theorem claim_C9_counterexample :
    normalizeEols (String.mk ['\r', '\r', '\n']) = String.mk ['\r', '\n'] ∧
      containsCrLf (normalizeEols (String.mk ['\r', '\r', '\n'])).toList = true :=
  ⟨rfl, rfl⟩

/-- C9 amended: the source text is the file content with each
non-overlapping `\r\n` replaced (left to right) by `\n`; whenever every
carriage return in the content is immediately followed by a line feed, the
normalized text contains no `\r\n` sequence. -/
theorem claim_C9_amended_normalization (s : String)
    (h : noLoneCR s.toList = true) :
    containsCrLf (normalizeEols s).toList = false := by
  have hmem := crNotMem_replaceCrLf s.toList h
  by_contra hc
  rw [Bool.not_eq_false] at hc
  have hlist : (normalizeEols s).toList = replaceCrLf s.toList := rfl
  rw [hlist] at hc
  exact hmem (mem_of_containsCrLf _ hc)

theorem claim_C9_amended_witness :
    containsCrLf (normalizeEols (String.mk ['a', '\r', '\n', 'b'])).toList = false :=
  claim_C9_amended_normalization (String.mk ['a', '\r', '\n', 'b']) (by decide)

/-- C3 as stated is false: `null` is a scalar (neither an array nor an
object) yet is not returned unchanged — `typeof null === "object"`, so the
normalizer rebuilds it as an empty object. -/
theorem claim_C3_counterexample :
    stripExtraNonComparableKeys JVal.null = JVal.obj [] ∧
      stripExtraNonComparableKeys JVal.null ≠ JVal.null := by
  have h0 : stripExtraNonComparableKeys JVal.null = JVal.obj [] := by
    simp [stripExtraNonComparableKeys]
  refine ⟨h0, ?_⟩
  rw [h0]
  intro h
  exact JVal.noConfusion h

/-- C3 amended: the extra normalization maps arrays element-wise, recurses
field-wise into objects removing the `"text"` key (so no `"text"` key
survives at any depth), and returns scalars unchanged with the single
exception of `null`, which JavaScript's `typeof` classifies as an object
and which becomes an empty object node. -/
theorem claim_C3_amended_strip_behaviour :
    (∀ l, stripExtraNonComparableKeys (JVal.arr l) =
        JVal.arr (l.map stripExtraNonComparableKeys))
    ∧ (∀ fs, stripExtraNonComparableKeys (JVal.obj fs) =
        JVal.obj ((fs.filter (fun kv => kv.1 ≠ "text")).map
          (fun kv => (kv.1, stripExtraNonComparableKeys kv.2))))
    ∧ stripExtraNonComparableKeys JVal.null = JVal.obj []
    ∧ (∀ s, stripExtraNonComparableKeys (JVal.str s) = JVal.str s)
    ∧ (∀ n, stripExtraNonComparableKeys (JVal.num n) = JVal.num n)
    ∧ (∀ b, stripExtraNonComparableKeys (JVal.bool b) = JVal.bool b)
    ∧ stripExtraNonComparableKeys JVal.undef = JVal.undef
    ∧ (∀ v, hasTextKey (stripExtraNonComparableKeys v) = false) := by
  refine ⟨?_, ?_, ?_, ?_, ?_, ?_, ?_, hasTextKey_strip⟩
  · intro l
    simp [stripExtraNonComparableKeys, stripList_eq_map]
  · intro fs
    simp [stripExtraNonComparableKeys, stripFields_eq]
  · simp [stripExtraNonComparableKeys]
  · intro s
    simp [stripExtraNonComparableKeys]
  · intro n
    simp [stripExtraNonComparableKeys]
  · intro b
    simp [stripExtraNonComparableKeys]
  · simp [stripExtraNonComparableKeys]

/-- C1: on the domain of parse results whose `errors` field is absent or an
array, the round-trip test's assertion list always begins with the
no-throw assertion (`pperr` is `null`) and the definedness assertion (the
massaged re-parsed tree is not `undefined`), and it additionally evaluates
the deep-equality assertion exactly when the error list is absent or
empty; the equality assertion holds precisely when the two normalized
trees are equal. -/
theorem claim_C1_round_trip_assertions (pperr : Option String)
    (ppastMassaged astMassaged : JVal) (errors : Option JVal)
    (h : errors = none ∨ ∃ l, errors = some (JVal.arr l)) :
    astCompareAssertions pperr ppastMassaged astMassaged errors =
      [decide (pperr = none), !ppastMassaged.isUndef] ++
        (if errorsAbsentOrEmptyJS errors then
          [JVal.beq astMassaged ppastMassaged]
        else [])
    ∧ (errorsAbsentOrEmptyJS errors = true ↔
        (errors = none ∨ errors = some (JVal.arr [])))
    ∧ (JVal.beq astMassaged ppastMassaged = true ↔ astMassaged = ppastMassaged) := by
  refine ⟨rfl, ?_, JVal.beq_iff astMassaged ppastMassaged⟩
  rcases h with rfl | ⟨l, rfl⟩
  · simp [errorsAbsentOrEmptyJS]
  · cases l with
    | nil => simp [errorsAbsentOrEmptyJS, truthy, jsLengthIsZero]
    | cons e es => simp [errorsAbsentOrEmptyJS, truthy, jsLengthIsZero]

theorem claim_C1_witness :
    astCompareAssertions none JVal.undef (JVal.str "tree") none =
      [decide ((none : Option String) = none), !JVal.undef.isUndef] ++
        (if errorsAbsentOrEmptyJS none then
          [JVal.beq (JVal.str "tree") JVal.undef]
        else [])
    ∧ (errorsAbsentOrEmptyJS none = true ↔
        ((none : Option JVal) = none ∨ (none : Option JVal) = some (JVal.arr [])))
    ∧ (JVal.beq (JVal.str "tree") JVal.undef = true ↔
        JVal.str "tree" = JVal.undef) :=
  claim_C1_round_trip_assertions none JVal.undef (JVal.str "tree") none (Or.inl rfl)

theorem objSet_reachable_eq (ref st : Obj) (k : String) (v : JVal)
    (h : st = ref ∨ ∃ q, st = objSet ref k (JVal.str q)) :
    objSet st k v = objSet ref k v := by
  rcases h with rfl | ⟨q, rfl⟩
  · rfl
  · exact objSet_objSet_same ref k (JVal.str q) v

theorem foldl_verify_orbit (env : Env) (source path output : String)
    (ref : Obj) (ps : List String) (st : Obj)
    (h : st = ref ∨ ∃ q, st = objSet ref "parser" (JVal.str q)) :
    ps.foldl (fun acc pn => (verifyTestRun env source path output pn acc).1) st = ref ∨
      ∃ q, ps.foldl (fun acc pn => (verifyTestRun env source path output pn acc).1) st =
        objSet ref "parser" (JVal.str q) := by
  induction ps generalizing st with
  | nil => exact h
  | cons p rest ih =>
    apply ih
    right
    refine ⟨p, ?_⟩
    show (verifyTestRun env source path output p st).1 =
      objSet ref "parser" (JVal.str p)
    have h1 : (verifyTestRun env source path output p st).1 =
        objSet st "parser" (JVal.str p) := rfl
    rw [h1, objSet_reachable_eq ref st "parser" (JVal.str p) h]

/-- C2: whatever the current state `st` of the shared merged option object
(initially the reference set `ref`; afterwards only its `parser` field has
been rewritten by earlier verification tests), the verification test for
an alternate parser `p` formats the same source text and path under the
option set `objSet ref "parser" p` — identical to the reference option set
except the parser identifier — and its assertion compares the primary
parser's output with that result for exact string equality. -/
theorem claim_C2_cross_parser_equality (env : Env)
    (source path output p : String) (ref st : Obj)
    (h : st = ref ∨ ∃ q, st = objSet ref "parser" (JVal.str q)) :
    verifyTestRun env source path output p st =
      (objSet ref "parser" (JVal.str p),
        match prettyprint env source path (objSet ref "parser" (JVal.str p)) with
        | .error e => .error e
        | .ok verifyOutput => .ok (output == verifyOutput))
    ∧ objGet (objSet ref "parser" (JVal.str p)) "parser" = some (JVal.str p)
    ∧ ∀ k, k ≠ "parser" →
        objGet (objSet ref "parser" (JVal.str p)) k = objGet ref k := by
  refine ⟨?_, objGet_objSet_self ref "parser" (JVal.str p), ?_⟩
  · unfold verifyTestRun
    rw [objSet_reachable_eq ref st "parser" (JVal.str p) h]
  · intro k hk
    exact objGet_objSet_ne ref "parser" k (JVal.str p) hk

theorem claim_C2_witness :
    verifyTestRun envW "x = 1\n" "dir/a.py" "x = 1\n" "python3"
        [("parser", JVal.str "python"), ("pythonBin", JVal.str "python3.6")] =
      (objSet [("parser", JVal.str "python"), ("pythonBin", JVal.str "python3.6")]
          "parser" (JVal.str "python3"),
        match prettyprint envW "x = 1\n" "dir/a.py"
            (objSet [("parser", JVal.str "python"), ("pythonBin", JVal.str "python3.6")]
              "parser" (JVal.str "python3")) with
        | .error e => .error e
        | .ok verifyOutput => .ok ("x = 1\n" == verifyOutput))
    ∧ objGet (objSet [("parser", JVal.str "python"), ("pythonBin", JVal.str "python3.6")]
          "parser" (JVal.str "python3")) "parser" = some (JVal.str "python3")
    ∧ ∀ k, k ≠ "parser" →
        objGet (objSet [("parser", JVal.str "python"), ("pythonBin", JVal.str "python3.6")]
            "parser" (JVal.str "python3")) k =
          objGet [("parser", JVal.str "python"), ("pythonBin", JVal.str "python3.6")] k :=
  claim_C2_cross_parser_equality envW "x = 1\n" "dir/a.py" "x = 1\n" "python3"
    [("parser", JVal.str "python"), ("pythonBin", JVal.str "python3.6")]
    [("parser", JVal.str "python"), ("pythonBin", JVal.str "python3.6")]
    (Or.inl rfl)

/-- C10: the derived option set built for an alternate parser is the
shared merged option object itself, mutated in place: after the
verification test for parser `p` executes from state `st`, the shared
object is `objSet st "parser" p`, its `parser` field equals `p`, and every
other field still equals the corresponding field of the reference set. -/
theorem claim_C10_in_place_mutation (env : Env)
    (source path output p : String) (ref st : Obj)
    (h : st = ref ∨ ∃ q, st = objSet ref "parser" (JVal.str q)) :
    (verifyTestRun env source path output p st).1 = objSet st "parser" (JVal.str p)
    ∧ objGet (verifyTestRun env source path output p st).1 "parser" =
        some (JVal.str p)
    ∧ ∀ k, k ≠ "parser" →
        objGet (verifyTestRun env source path output p st).1 k = objGet ref k := by
  have h1 : (verifyTestRun env source path output p st).1 =
      objSet st "parser" (JVal.str p) := rfl
  refine ⟨h1, ?_, ?_⟩
  · rw [h1]
    exact objGet_objSet_self st "parser" (JVal.str p)
  · intro k hk
    rw [h1, objSet_reachable_eq ref st "parser" (JVal.str p) h]
    exact objGet_objSet_ne ref "parser" k (JVal.str p) hk

theorem claim_C10_witness :
    (verifyTestRun envW "y = 2\n" "dir/b.py" "y = 2\n" "python2"
        (objSet [("parser", JVal.str "python"), ("tabWidth", JVal.num 4)]
          "parser" (JVal.str "python3"))).1 =
      objSet (objSet [("parser", JVal.str "python"), ("tabWidth", JVal.num 4)]
          "parser" (JVal.str "python3")) "parser" (JVal.str "python2")
    ∧ objGet (verifyTestRun envW "y = 2\n" "dir/b.py" "y = 2\n" "python2"
          (objSet [("parser", JVal.str "python"), ("tabWidth", JVal.num 4)]
            "parser" (JVal.str "python3"))).1 "parser" = some (JVal.str "python2")
    ∧ ∀ k, k ≠ "parser" →
        objGet (verifyTestRun envW "y = 2\n" "dir/b.py" "y = 2\n" "python2"
            (objSet [("parser", JVal.str "python"), ("tabWidth", JVal.num 4)]
              "parser" (JVal.str "python3"))).1 k =
          objGet [("parser", JVal.str "python"), ("tabWidth", JVal.num 4)] k :=
  claim_C10_in_place_mutation envW "y = 2\n" "dir/b.py" "y = 2\n" "python2"
    [("parser", JVal.str "python"), ("tabWidth", JVal.num 4)]
    (objSet [("parser", JVal.str "python"), ("tabWidth", JVal.num 4)]
      "parser" (JVal.str "python3"))
    (Or.inr ⟨"python3", rfl⟩)

end RunSpec
